import Mathlib

/-
Verification of the dynamically resizable admission-control primitive of the
arc-lang repository (src/src/async_utils/cancellable_semaphore.py and
src/src/async_utils/semaphore_monitor.py).

The embedding is shallow: each Python method body that runs atomically under
the asyncio lock (or between two awaits of the single-threaded event loop)
becomes a pure Lean function on an explicit state record, and the possible
interleavings of concurrent callers become a small-step transition relation.
Machine integers are Int (Python integers are unbounded).
-/

namespace ArcLang

/-- Entry of the waiter deque of CancellableMonitoredSemaphore.  Each entry is
an asyncio.Future created by a queued acquire call; `done` records whether the
future has already completed (it is set once the owning task has been
cancelled while the entry is still in the deque, mirroring fut.cancel). -/
structure Waiter where
  id : Nat
  done : Bool
deriving DecidableEq

/-- State of a CancellableMonitoredSemaphore (fields _max_value, _active_count,
_available, _waiters of __init__, lines 25-29).  The last four lists are
bookkeeping the Python object keeps implicitly: pendingResume are the ids of
futures already granted via set_result whose owning coroutine has not yet
resumed (it still has to run the post-await active_count increment of acquire,
lines 88-89); enqLog, grantLog, cancelLog record the order of enqueue, grant
and shrink-cancellation events. -/
structure CState where
  max_value : Int
  active_count : Int
  available : Int
  waiters : List Waiter
  pendingResume : List Nat
  enqLog : List Nat
  grantLog : List Nat
  cancelLog : List Nat
deriving DecidableEq

/-- Constructor state: __init__(value) sets _max_value = value,
_active_count = 0, _available = value, _waiters = deque(). -/
def mkInit (v : Int) : CState :=
  ⟨v, 0, v, [], [], [], [], []⟩

/-- Loop of _release_async lines 109-114: pop entries from the left of the
deque, discarding completed futures, until a pending one is found; returns
that waiter together with the remainder of the deque. -/
def extractFirstPending : List Waiter → Option (Waiter × List Waiter)
  | [] => none
  | w :: ws => if w.done then extractFirstPending ws else some (w, ws)

/-- Body of _release_async (lines 103-118): decrement _active_count, then
either grant the first pending waiter by set_result (the granted id moves to
pendingResume; _active_count is NOT incremented here, the woken coroutine does
that itself on resumption) or, when no pending waiter exists, increment
_available.  In the latter case the while loop has popped every (completed)
entry, leaving the deque empty. -/
def release_async (s : CState) : CState :=
  let s1 := { s with active_count := s.active_count - 1 }
  match extractFirstPending s1.waiters with
  | some (w, rest) =>
      { s1 with waiters := rest,
                pendingResume := s1.pendingResume ++ [w.id],
                grantLog := s1.grantLog ++ [w.id] }
  | none =>
      { s1 with waiters := [], available := s1.available + 1 }

/-- Wake loop of update_limit lines 149-154: iterate `k` times; each
iteration pops the head of the deque (when non-empty) and, when that future
is not done, grants it with set_result and decrements _available. -/
def wake_loop : Nat → CState → CState
  | 0, s => s
  | Nat.succ k, s =>
      match s.waiters with
      | [] => wake_loop k s
      | w :: ws =>
          if w.done then wake_loop k { s with waiters := ws }
          else wake_loop k { s with waiters := ws,
                                    available := s.available - 1,
                                    pendingResume := s.pendingResume ++ [w.id],
                                    grantLog := s.grantLog ++ [w.id] }

/-- Cancel loop of update_limit lines 162-165, one iteration per fuel unit:
while the deque holds more than `allowed` entries, pop the tail-most entry
and cancel its future when it is not already done.  Each iteration shortens
the deque by one, so the loop runs at most (initial length) times; the fuel
argument carries that bound to keep the recursion structural. -/
def cancel_excess_go : Nat → Nat → CState → CState
  | 0, _, s => s
  | Nat.succ fuel, allowed, s =>
      if allowed < s.waiters.length then
        match s.waiters.getLast? with
        | none => s
        | some w =>
            cancel_excess_go fuel allowed
              { s with waiters := s.waiters.dropLast,
                       cancelLog := if w.done then s.cancelLog
                                    else s.cancelLog ++ [w.id] }
      else s

/-- Cancel loop of update_limit lines 162-165 run to completion. -/
def cancel_excess (allowed : Nat) (s : CState) : CState :=
  cancel_excess_go s.waiters.length allowed s

/-- Body of update_limit (lines 120-174).  Raising ValueError for a
non-positive limit is the Except.error case; the error is raised before the
lock is taken, so the state is untouched.  Equal limit is an early return.
Otherwise: record old limit, install the new one, recompute _available from
new_limit - _active_count (clamped to 0 with a warning in the over-commit
case), wake waiters from the head on growth, cancel waiters from the tail on
shrink down to allowed_waiting = max(0, new_limit - _active_count). -/
def update_limit (s : CState) (new_limit : Int) : Except String CState :=
  if new_limit ≤ 0 then Except.error "Semaphore limit must be positive"
  else Except.ok <|
    if new_limit = s.max_value then s
    else
      let old_limit := s.max_value
      let s1 := { s with max_value := new_limit }
      let new_available := new_limit - s1.active_count
      let s2 :=
        if new_available < 0 then
          { s1 with available := 0 }
        else
          let s1a := { s1 with available := new_available }
          if old_limit < new_limit then
            wake_loop (min s1a.waiters.length new_available.toNat) s1a
          else s1a
      if new_limit < old_limit then
        cancel_excess (new_limit - s2.active_count).toNat s2
      else s2

/-- Resumption of a list of granted waiters: each woken coroutine re-acquires
the lock and runs _active_count += 1 (acquire lines 87-89); its id leaves
pendingResume. -/
def resumeAll (ids : List Nat) (s : CState) : CState :=
  ids.foldl
    (fun t i => { t with active_count := t.active_count + 1,
                         pendingResume := t.pendingResume.erase i }) s

/-- Status accessor available_permits (lines 53-55): returns the stored
_available field. -/
def available_permits (s : CState) : Int :=
  s.available

/-- Status accessor current_limit (lines 57-59). -/
def current_limit (s : CState) : Int :=
  s.max_value

/-- Status accessor active_count (lines 49-51). -/
def active_count_acc (s : CState) : Int :=
  s.active_count

/-- Status accessor saturation_percentage (lines 61-65): 0 when the limit is
0, otherwise active/limit*100 in exact rational arithmetic. -/
def saturation_percentage (s : CState) : ℚ :=
  if s.max_value = 0 then 0
  else ((s.active_count : ℚ) / (s.max_value : ℚ)) * 100

/-- Small-step relation over the semaphore state at a fixed limit (no
update_limit call in flight).  Each constructor is one atomic section of the
Python code: a stretch executed either under the asyncio lock or between two
suspension points of the single-threaded event loop.
* acqFast: lines 76-81, fast path of acquire when _available > 0.
* acqSlow: lines 84-85, a blocked acquire creates a Future and appends it to
  the deque.  This happens outside the lock, so no guard constrains it.
* futCancel: Task.cancel of a queued acquire cancels the future the task is
  awaiting; the entry (still in the deque) becomes done.
* cancelCleanup: lines 92-96, the CancelledError handler removes the entry of
  the cancelled future from the deque.
* rel: lines 103-118, _release_async by a caller that holds a permit.
* resumeOk: lines 87-89, a coroutine granted by set_result resumes and
  increments _active_count under the lock.
* resumeCancelled: lines 91-97 for a waiter that was ALREADY granted (popped
  from the deque by _release_async and put in pendingResume): asyncio
  delivers a requested cancellation at the await even though the awaited
  future completed, so the coroutine raises CancelledError; the handler finds
  the future no longer in the deque (ValueError, pass) and re-raises.
  Nothing restores the permit that set_result had transferred. -/
inductive StepF : CState → CState → Prop
  | acqFast (s : CState) :
      0 < s.available →
      StepF s { s with available := s.available - 1,
                       active_count := s.active_count + 1 }
  | acqSlow (s : CState) (w : Nat) :
      StepF s { s with waiters := s.waiters ++ [⟨w, false⟩],
                       enqLog := s.enqLog ++ [w] }
  | futCancel (s : CState) (a b : List Waiter) (w : Nat) :
      s.waiters = a ++ ⟨w, false⟩ :: b →
      StepF s { s with waiters := a ++ ⟨w, true⟩ :: b }
  | cancelCleanup (s : CState) (a b : List Waiter) (w : Nat) :
      s.waiters = a ++ ⟨w, true⟩ :: b →
      StepF s { s with waiters := a ++ b }
  | rel (s : CState) :
      0 < s.active_count →
      StepF s (release_async s)
  | resumeOk (s : CState) (w : Nat) :
      w ∈ s.pendingResume →
      StepF s { s with active_count := s.active_count + 1,
                       pendingResume := s.pendingResume.erase w }
  | resumeCancelled (s : CState) (w : Nat) :
      w ∈ s.pendingResume →
      StepF s { s with pendingResume := s.pendingResume.erase w }

/-- States reachable from a fresh semaphore of limit L by acquire, release,
cancellation and resumption steps, the limit staying fixed. -/
def ReachF (L : Int) (s : CState) : Prop :=
  Relation.ReflTransGen StepF (mkInit L) s

/-
State of a MonitoredSemaphore (semaphore_monitor.py).  The class wraps a
plain asyncio.Semaphore and REPLACES it by a fresh one on every effective
resize (update_limit lines 166-176), keeping the old instances alive in
_old_semaphores for in-flight holders.  sem_value is the internal counter of
the CURRENT underlying semaphore; old_semaphores records the counters of the
replaced ones at replacement time.
-/
structure MState where
  sem_value : Int
  max_value : Int
  active_count : Int
  old_semaphores : List Int
deriving DecidableEq

/-- Constructor of MonitoredSemaphore (lines 30-36). -/
def mInit (v : Int) : MState :=
  ⟨v, v, 0, []⟩

/-- Acquire path of MonitoredSemaphore.__aenter__ (lines 214-228): await of
the CURRENT semaphore, then _active_count += 1.  When the current semaphore
has no permit the caller suspends on it; within a sequential run in which no
later operation releases that same semaphore instance, the blocked caller
never resumes, so the visible state is unchanged. -/
def m_acquire (m : MState) : MState :=
  if 0 < m.sem_value then
    { m with sem_value := m.sem_value - 1, active_count := m.active_count + 1 }
  else m

/-- Release path of MonitoredSemaphore.__aexit__ (lines 230-234):
_active_count -= 1 then self._semaphore.release() — note this releases the
CURRENT semaphore instance, whichever it is by now. -/
def m_release (m : MState) : MState :=
  { m with sem_value := m.sem_value + 1, active_count := m.active_count - 1 }

/-- MonitoredSemaphore.update_limit (lines 149-192).  The inner body raises
ValueError for a non-positive limit and otherwise either early-returns (equal
limit) or parks the current semaphore in _old_semaphores and installs a fresh
asyncio.Semaphore(new_limit).  The WHOLE body sits inside
try/except Exception (lines 152, 189-192), which prints the error and falls
through, so the coroutine always returns normally: the error is never
surfaced to the caller. -/
def m_update_limit (m : MState) (new_limit : Int) : Except String MState :=
  let inner : Except String MState :=
    if new_limit ≤ 0 then Except.error "Semaphore limit must be positive"
    else Except.ok <|
      if new_limit = m.max_value then m
      else
        { m with sem_value := new_limit,
                 max_value := new_limit,
                 old_semaphores := m.old_semaphores ++ [m.sem_value] }
  match inner with
  | Except.error _ => Except.ok m
  | Except.ok t => Except.ok t

/-- Status accessor MonitoredSemaphore.available_permits (lines 60-63):
_max_value - _active_count, with no clamping. -/
def m_available_permits (m : MState) : Int :=
  m.max_value - m.active_count

/-- Status accessor MonitoredSemaphore.current_limit (lines 72-75). -/
def m_current_limit (m : MState) : Int :=
  m.max_value

/-- Status accessor MonitoredSemaphore.saturation_percentage (lines 65-70). -/
def m_saturation_percentage (m : MState) : ℚ :=
  if m.max_value = 0 then 0
  else ((m.active_count : ℚ) / (m.max_value : ℚ)) * 100

/-- Caller-facing operations used to compare the two resize strategies on
one sequential schedule (each operation runs to completion before the
next starts). -/
inductive Op
  | acq
  | rel
  | setLimit (n : Int)

/-- Sequential run of a MonitoredSemaphore. -/
def runM (m : MState) : List Op → MState
  | [] => m
  | Op.acq :: ops => runM (m_acquire m) ops
  | Op.rel :: ops => runM (m_release m) ops
  | Op.setLimit n :: ops =>
      match m_update_limit m n with
      | Except.ok t => runM t ops
      | Except.error _ => runM m ops

/-- One sequential acquire against a CancellableMonitoredSemaphore: the fast
path when _available > 0, otherwise the caller enqueues a fresh Future (its
id taken as the number of enqueues so far) and suspends. -/
def c_acquire (s : CState) : CState :=
  if 0 < s.available then
    { s with available := s.available - 1, active_count := s.active_count + 1 }
  else
    { s with waiters := s.waiters ++ [⟨s.enqLog.length, false⟩],
             enqLog := s.enqLog ++ [s.enqLog.length] }

/-- Sequential run of a CancellableMonitoredSemaphore.  A ValueError escaping
update_limit leaves the state unchanged (the raise happens before the lock is
taken). -/
def runC (s : CState) : List Op → CState
  | [] => s
  | Op.acq :: ops => runC (c_acquire s) ops
  | Op.rel :: ops => runC (release_async s) ops
  | Op.setLimit n :: ops =>
      match update_limit s n with
      | Except.ok t => runC t ops
      | Except.error _ => runC s ops

/-- Dictionary values a JSON payload can hold at key "limit", as Python sees
them after response.json(): None, a bool, an int, or a string.  In Python,
bool is a subclass of int, so isinstance(True, int) is True. -/
inductive PyVal
  | pyNone
  | pyBool (b : Bool)
  | pyInt (n : Int)
  | pyStr (s : String)
deriving DecidableEq

/-- Python isinstance(x, int): true for int AND for bool (bool subclasses
int). -/
def isinstance_int : PyVal → Bool
  | PyVal.pyInt _ => true
  | PyVal.pyBool _ => true
  | _ => false

/-- Numeric value of a PyVal where Python would coerce it in int contexts
(True == 1, False == 0). -/
def pyToInt : PyVal → Int
  | PyVal.pyInt n => n
  | PyVal.pyBool b => if b then 1 else 0
  | _ => 0

/-- Python dict.get(key): the first binding of the key, or None. -/
def dict_get (d : List (String × PyVal)) (k : String) : PyVal :=
  match d.find? (fun p => p.1 = k) with
  | some p => p.2
  | none => PyVal.pyNone

/-- Validation core of _fetch_limit_from_url (cancellable_semaphore.py lines
205-208, identical in semaphore_monitor.py lines 91-96): limit =
data.get("limit"); if isinstance(limit, int) and limit > 0: return limit;
otherwise the fetch counts as a non-update (None). -/
def fetch_limit_validate (d : List (String × PyVal)) : Option PyVal :=
  let limit := dict_get d "limit"
  if isinstance_int limit && decide (0 < pyToInt limit) then some limit
  else none

/-! ### Helper lemmas about the release path -/

lemma extractFirstPending_some {l : List Waiter} {w : Waiter} {r : List Waiter}
    (h : extractFirstPending l = some (w, r)) :
    ∃ p, l = p ++ w :: r ∧ (∀ x ∈ p, x.done = true) ∧ w.done = false := by
  induction l with
  | nil => simp [extractFirstPending] at h
  | cons a as ih =>
      by_cases hd : a.done
      · simp only [extractFirstPending, hd, if_true] at h
        obtain ⟨p, hp, hall, hw⟩ := ih h
        exact ⟨a :: p, by simp [hp], by simpa [hd] using hall, hw⟩
      · simp only [extractFirstPending, hd, if_false] at h
        obtain ⟨rfl, rfl⟩ := Prod.mk.injEq .. ▸ (Option.some.injEq _ _ ▸ h)
        exact ⟨[], by simp, by simp, by simpa using hd⟩

lemma extractFirstPending_none {l : List Waiter}
    (h : extractFirstPending l = none) :
    ∀ x ∈ l, x.done = true := by
  induction l with
  | nil => simp
  | cons a as ih =>
      by_cases hd : a.done
      · simp only [extractFirstPending, hd, if_true] at h
        simpa [hd] using ih h
      · simp [extractFirstPending, hd] at h

/-- The waiter returned by the pop loop of _release_async is exactly the
head-most still-pending entry of the deque. -/
lemma extractFirstPending_eq_find {l : List Waiter} {w : Waiter} {r : List Waiter}
    (h : extractFirstPending l = some (w, r)) :
    l.find? (fun x => !x.done) = some w := by
  induction l with
  | nil => simp [extractFirstPending] at h
  | cons a as ih =>
      by_cases hd : a.done
      · simp only [extractFirstPending, hd, if_true] at h
        simpa [List.find?, hd] using ih h
      · simp only [extractFirstPending, hd, if_false] at h
        obtain ⟨rfl, rfl⟩ := Prod.mk.injEq .. ▸ (Option.some.injEq _ _ ▸ h)
        simp [List.find?, hd]

/-! ### Permit-count invariant at a fixed limit -/

/-- Conservation invariant: counters are non-negative and the permits
accounted by active holders, granted-but-unresumed waiters and the available
pool never exceed the limit. -/
def InvF (L : Int) (s : CState) : Prop :=
  0 ≤ s.active_count ∧ 0 ≤ s.available ∧
  s.active_count + s.available + (s.pendingResume.length : Int) ≤ L

lemma stepF_preserves_InvF {L : Int} {s t : CState}
    (hst : StepF s t) (hs : InvF L s) : InvF L t := by
  obtain ⟨h1, h2, h3⟩ := hs
  unfold InvF
  cases hst with
  | acqFast hav =>
      dsimp only
      refine ⟨by omega, by omega, by omega⟩
  | acqSlow w =>
      dsimp only
      exact ⟨h1, h2, h3⟩
  | futCancel a b w hw =>
      dsimp only
      exact ⟨h1, h2, h3⟩
  | cancelCleanup a b w hw =>
      dsimp only
      exact ⟨h1, h2, h3⟩
  | rel hact =>
      unfold release_async
      dsimp only
      cases hx : extractFirstPending s.waiters with
      | some p =>
          obtain ⟨w, r⟩ := p
          dsimp only
          refine ⟨by omega, h2, ?_⟩
          simp only [List.length_append, List.length_cons, List.length_nil]
          push_cast
          omega
      | none =>
          dsimp only
          refine ⟨by omega, by omega, by omega⟩
  | resumeOk w hw =>
      dsimp only
      have hlen : 0 < s.pendingResume.length :=
        List.length_pos.mpr (List.ne_nil_of_mem hw)
      refine ⟨by omega, h2, ?_⟩
      rw [List.length_erase_of_mem hw]
      omega
  | resumeCancelled w hw =>
      dsimp only
      have hlen : 0 < s.pendingResume.length :=
        List.length_pos.mpr (List.ne_nil_of_mem hw)
      refine ⟨h1, h2, ?_⟩
      rw [List.length_erase_of_mem hw]
      omega

lemma reachF_InvF {L : Int} {s : CState} (hL : 0 ≤ L) (h : ReachF L s) :
    InvF L s := by
  induction h with
  | refl => exact ⟨le_refl 0, hL, by simp [mkInit]⟩
  | tail _ hstep ih => exact stepF_preserves_InvF hstep ih

/-! ### FIFO invariant -/

/-- Order invariant: the grant history followed by the ids still queued form
a subsequence of the enqueue history.  In particular grants happen in
enqueue order. -/
def InvQ (s : CState) : Prop :=
  (s.grantLog ++ s.waiters.map Waiter.id).Sublist s.enqLog

lemma stepF_preserves_InvQ {s t : CState}
    (hst : StepF s t) (hs : InvQ s) : InvQ t := by
  unfold InvQ at hs ⊢
  cases hst with
  | acqFast hav =>
      dsimp only
      exact hs
  | acqSlow w =>
      dsimp only
      rw [List.map_append, ← List.append_assoc]
      exact hs.append (List.Sublist.refl _)
  | futCancel a b w hw =>
      dsimp only
      rw [hw] at hs
      simpa [List.map_append] using hs
  | cancelCleanup a b w hw =>
      dsimp only
      rw [hw] at hs
      refine List.Sublist.trans ?_ hs
      rw [List.map_append, List.map_append, List.map_cons, ← List.append_assoc,
          ← List.append_assoc]
      exact List.Sublist.append (List.Sublist.refl _)
        (List.Sublist.cons _ (List.Sublist.refl _))
  | rel hact =>
      unfold release_async
      dsimp only
      cases hx : extractFirstPending s.waiters with
      | some p =>
          obtain ⟨w, r⟩ := p
          dsimp only
          obtain ⟨pre, hpre, hall, hwp⟩ := extractFirstPending_some hx
          rw [hpre] at hs
          refine List.Sublist.trans ?_ hs
          rw [List.map_append, List.map_cons, List.append_assoc]
          refine List.Sublist.append (List.Sublist.refl s.grantLog) ?_
          rw [List.singleton_append]
          exact List.sublist_append_right _ _
      | none =>
          dsimp only
          refine List.Sublist.trans ?_ hs
          simpa using List.sublist_append_left _ _
  | resumeOk w hw =>
      dsimp only
      exact hs
  | resumeCancelled w hw =>
      dsimp only
      exact hs

lemma reachF_InvQ {L : Int} {s : CState} (h : ReachF L s) : InvQ s := by
  induction h with
  | refl => simp [InvQ, mkInit]
  | tail _ hstep ih => exact stepF_preserves_InvQ hstep ih

/-! ### Characterization of the update_limit loops -/

/-- Id logged when the shrink loop pops a waiter: pending futures are
cancelled, already-done ones are discarded silently. -/
def cancelId (w : Waiter) : Option Nat :=
  if w.done then none else some w.id

lemma cancel_excess_go_spec (fuel : Nat) :
    ∀ (a : Nat) (s : CState), s.waiters.length ≤ fuel →
    (cancel_excess_go fuel a s).waiters = s.waiters.take a ∧
    (cancel_excess_go fuel a s).cancelLog
      = s.cancelLog ++ (s.waiters.drop a).reverse.filterMap cancelId ∧
    (cancel_excess_go fuel a s).max_value = s.max_value ∧
    (cancel_excess_go fuel a s).active_count = s.active_count ∧
    (cancel_excess_go fuel a s).available = s.available ∧
    (cancel_excess_go fuel a s).pendingResume = s.pendingResume ∧
    (cancel_excess_go fuel a s).enqLog = s.enqLog ∧
    (cancel_excess_go fuel a s).grantLog = s.grantLog := by
  induction fuel with
  | zero =>
      intro a s hf
      have hnil : s.waiters = [] :=
        List.length_eq_zero.mp (Nat.le_zero.mp hf)
      rw [cancel_excess_go, hnil]
      simp
  | succ fuel ih =>
      intro a s hf
      by_cases hlt : a < s.waiters.length
      · obtain hnil | ⟨l, w, hsnoc⟩ := s.waiters.eq_nil_or_concat
        · rw [hnil] at hlt; simp at hlt
        · rw [List.concat_eq_append] at hsnoc
          have hlen : a ≤ l.length := by
            rw [hsnoc] at hlt; simp at hlt; omega
          rw [cancel_excess_go, if_pos hlt, hsnoc, List.getLast?_concat]
          dsimp only
          have hdrop : (l ++ [w]).dropLast = l := List.dropLast_concat ..
          have hfl : ({ s with waiters := (l ++ [w]).dropLast, cancelLog := if w.done then s.cancelLog else s.cancelLog ++ [w.id] } : CState).waiters.length ≤ fuel := by
            dsimp only
            rw [hdrop]
            rw [hsnoc] at hf
            simp at hf
            omega
          obtain ⟨k1, k2, k3, k4, k5, k6, k7, k8⟩ := ih a
            { s with waiters := (l ++ [w]).dropLast, cancelLog := if w.done then s.cancelLog else s.cancelLog ++ [w.id] }
            hfl
          refine ⟨?_, ?_, ?_, ?_, ?_, ?_, ?_, ?_⟩
          · rw [k1]
            dsimp only
            rw [hdrop, List.take_append_of_le_length hlen]
          · rw [k2]
            dsimp only
            rw [hdrop, List.drop_append_of_le_length hlen]
            simp only [List.reverse_append, List.reverse_cons, List.reverse_nil,
              List.nil_append, List.singleton_append, List.filterMap_cons]
            cases hdw : w.done <;>
              simp [cancelId, hdw, List.append_assoc]
          · rw [k3]
          · rw [k4]
          · rw [k5]
          · rw [k6]
          · rw [k7]
          · rw [k8]
      · rw [cancel_excess_go, if_neg hlt]
        push_neg at hlt
        refine ⟨?_, ?_, rfl, rfl, rfl, rfl, rfl, rfl⟩
        · rw [List.take_of_length_le hlt]
        · rw [List.drop_eq_nil_of_le hlt]
          simp

lemma cancel_excess_spec (a : Nat) (s : CState) :
    (cancel_excess a s).waiters = s.waiters.take a ∧
    (cancel_excess a s).cancelLog
      = s.cancelLog ++ (s.waiters.drop a).reverse.filterMap cancelId ∧
    (cancel_excess a s).max_value = s.max_value ∧
    (cancel_excess a s).active_count = s.active_count ∧
    (cancel_excess a s).available = s.available ∧
    (cancel_excess a s).pendingResume = s.pendingResume ∧
    (cancel_excess a s).enqLog = s.enqLog ∧
    (cancel_excess a s).grantLog = s.grantLog :=
  cancel_excess_go_spec s.waiters.length a s (le_refl _)

lemma wake_loop_spec (k : Nat) :
    ∀ (s : CState), k ≤ s.waiters.length →
    (∀ w ∈ s.waiters, w.done = false) →
    (wake_loop k s).waiters = s.waiters.drop k ∧
    (wake_loop k s).available = s.available - k ∧
    (wake_loop k s).pendingResume
      = s.pendingResume ++ (s.waiters.take k).map Waiter.id ∧
    (wake_loop k s).grantLog
      = s.grantLog ++ (s.waiters.take k).map Waiter.id ∧
    (wake_loop k s).max_value = s.max_value ∧
    (wake_loop k s).active_count = s.active_count ∧
    (wake_loop k s).enqLog = s.enqLog ∧
    (wake_loop k s).cancelLog = s.cancelLog := by
  induction k with
  | zero =>
      intro s _ _
      simp [wake_loop]
  | succ k ih =>
      intro s hk hp
      cases hq : s.waiters with
      | nil => rw [hq] at hk; simp at hk
      | cons w ws =>
          have hw : w.done = false := hp w (by rw [hq]; exact List.mem_cons_self _ _)
          rw [wake_loop, hq]
          dsimp only
          rw [hw]
          simp only [Bool.false_eq_true, if_false]
          have hk2 : k ≤ ws.length := by
            rw [hq] at hk; simp at hk; omega
          have hp2 : ∀ x ∈ ws, x.done = false := fun x hx =>
            hp x (by rw [hq]; exact List.mem_cons_of_mem _ hx)
          obtain ⟨k1, k2, k3, k4, k5, k6, k7, k8⟩ :=
            ih { s with waiters := ws, available := s.available - 1,
                        pendingResume := s.pendingResume ++ [w.id],
                        grantLog := s.grantLog ++ [w.id] }
               (by simpa using hk2) (by simpa using hp2)
          refine ⟨by exact k1, ?_, ?_, ?_, by exact k5, by exact k6,
            by exact k7, by exact k8⟩
          · rw [k2]; dsimp only; push_cast; ring
          · rw [k3]; dsimp only
            simp [List.take_succ_cons, List.append_assoc]
          · rw [k4]; dsimp only
            simp [List.take_succ_cons, List.append_assoc]

lemma resumeAll_active (ids : List Nat) :
    ∀ (s : CState), (resumeAll ids s).active_count
      = s.active_count + (ids.length : Int) := by
  induction ids with
  | nil =>
      intro s
      simp [resumeAll]
  | cons i is ih =>
      intro s
      simp only [resumeAll, List.foldl_cons]
      have h := ih { s with active_count := s.active_count + 1,
                            pendingResume := s.pendingResume.erase i }
      simp only [resumeAll] at h
      rw [h]
      simp only [List.length_cons]
      push_cast
      ring

/-- C3: every shrinking SetLimit (new < old, new positive) leaves active
unchanged, truncates the waiter queue to its first
allowedWaiting = max(0, newLimit - active) entries (tail-most waiters are
cancelled first, newest first in the cancellation log), and enters the
over-commitment window with available = 0 whenever newLimit < active
(while a mild shrink with active <= newLimit sets available to
newLimit - active). -/
theorem c3_shrink_cancels_tail (s t : CState) (n : Int) (h0 : 0 < n)
    (hlt : n < s.max_value) (h : update_limit s n = Except.ok t) :
    t.active_count = s.active_count ∧
    t.max_value = n ∧
    t.waiters = s.waiters.take (n - s.active_count).toNat ∧
    t.cancelLog = s.cancelLog
      ++ (s.waiters.drop (n - s.active_count).toNat).reverse.filterMap cancelId ∧
    (n < s.active_count → t.available = 0) ∧
    (s.active_count ≤ n → t.available = n - s.active_count) := by
  have hn0 : ¬ (n ≤ 0) := by omega
  have hne : ¬ (n = s.max_value) := by omega
  have hng : ¬ (s.max_value < n) := by omega
  simp only [update_limit, if_neg hn0, if_neg hne, if_neg hng, if_pos hlt] at h
  by_cases hav : n - s.active_count < 0
  · rw [if_pos hav] at h
    rw [Except.ok.injEq] at h
    subst h
    obtain ⟨k1, k2, k3, k4, k5, k6, k7, k8⟩ := cancel_excess_spec
      (n - s.active_count).toNat { s with max_value := n, available := 0 }
    refine ⟨by exact k4, by exact k3, by exact k1, by exact k2, ?_, ?_⟩
    · intro _
      exact k5
    · intro hle
      omega
  · rw [if_neg hav] at h
    rw [Except.ok.injEq] at h
    subst h
    obtain ⟨k1, k2, k3, k4, k5, k6, k7, k8⟩ := cancel_excess_spec
      (n - s.active_count).toNat
      { s with max_value := n, available := n - s.active_count }
    refine ⟨by exact k4, by exact k3, by exact k1, by exact k2, ?_, ?_⟩
    · intro hgt
      omega
    · intro _
      exact k5

/-- Witness for c3_shrink_cancels_tail, the shrink-with-waiters scenario of
the specification: limit 2, two active holders, one queued waiter; after
SetLimit(1) active stays 2, available is 0, the queue is empty and the
queued waiter 0 has been cancelled. -/
theorem c3_shrink_cancels_tail_witness :
    update_limit ⟨2, 2, 0, [⟨0, false⟩], [], [0], [], []⟩ 1
      = Except.ok ⟨1, 2, 0, [], [], [0], [], [0]⟩ ∧
    (⟨1, 2, 0, [], [], [0], [], [0]⟩ : CState).active_count = 2 ∧
    (⟨1, 2, 0, [], [], [0], [], [0]⟩ : CState).available = 0 ∧
    (⟨1, 2, 0, [], [], [0], [], [0]⟩ : CState).waiters = [] ∧
    (⟨1, 2, 0, [], [], [0], [], [0]⟩ : CState).cancelLog = [0] := by
  have h : update_limit ⟨2, 2, 0, [⟨0, false⟩], [], [0], [], []⟩ 1
      = Except.ok ⟨1, 2, 0, [], [], [0], [], [0]⟩ := by rfl
  obtain ⟨m1, m2, m3, m4, m5, m6⟩ := c3_shrink_cancels_tail
    ⟨2, 2, 0, [⟨0, false⟩], [], [0], [], []⟩ ⟨1, 2, 0, [], [], [0], [], [0]⟩ 1
    (by decide) (by decide) h
  exact ⟨h, by rw [m1], m5 (by decide), by rw [m3]; decide, by rw [m4]; decide⟩

/-- C4: every growing SetLimit (old < new) with delta = new - active >= 0
sets available to delta minus one per woken waiter, wakes
k = min(queueLength, delta) waiters from the head of the queue in order
(their ids are appended to pendingResume and to the grant log oldest
first), leaves active unchanged at the SetLimit itself, and once every
woken waiter resumes (each incrementing active by one) active has grown by
exactly k. -/
theorem c4_grow_wakes_head (s t : CState) (n : Int) (h0 : 0 < n)
    (hgt : s.max_value < n) (hd : 0 ≤ n - s.active_count)
    (hp : ∀ w ∈ s.waiters, w.done = false)
    (h : update_limit s n = Except.ok t) :
    t.max_value = n ∧
    t.active_count = s.active_count ∧
    t.waiters = s.waiters.drop
      (min s.waiters.length (n - s.active_count).toNat) ∧
    t.pendingResume = s.pendingResume ++
      (s.waiters.take (min s.waiters.length (n - s.active_count).toNat)).map
        Waiter.id ∧
    t.grantLog = s.grantLog ++
      (s.waiters.take (min s.waiters.length (n - s.active_count).toNat)).map
        Waiter.id ∧
    t.available = (n - s.active_count)
      - ((min s.waiters.length (n - s.active_count).toNat : Nat) : Int) ∧
    (resumeAll
        ((s.waiters.take (min s.waiters.length (n - s.active_count).toNat)).map
          Waiter.id) t).active_count
      = s.active_count
        + ((min s.waiters.length (n - s.active_count).toNat : Nat) : Int) := by
  have hn0 : ¬ (n ≤ 0) := by omega
  have hne : ¬ (n = s.max_value) := by omega
  have hav : ¬ (n - s.active_count < 0) := by omega
  have hns : ¬ (n < s.max_value) := by omega
  simp only [update_limit, if_neg hn0, if_neg hne, if_neg hav, if_pos hgt,
    if_neg hns] at h
  rw [Except.ok.injEq] at h
  subst h
  obtain ⟨k1, k2, k3, k4, k5, k6, k7, k8⟩ := wake_loop_spec
    (min s.waiters.length (n - s.active_count).toNat)
    { s with max_value := n, available := n - s.active_count }
    (by exact min_le_left _ _) (by exact hp)
  have hkl : ((s.waiters.take
      (min s.waiters.length (n - s.active_count).toNat)).map Waiter.id).length
      = min s.waiters.length (n - s.active_count).toNat := by
    simp [List.length_take]
  refine ⟨by exact k5, by exact k6, by exact k1, by exact k3, by exact k4,
    by exact k2, ?_⟩
  rw [resumeAll_active, hkl]
  rw [k6]

/-- Witness for c4_grow_wakes_head, the grow-with-waiters scenario of the
specification: limit 1, one active holder, waiters A=0 then B=1.
SetLimit(3) wakes both in order, available ends at 3-1-2 = 0, and after
both woken waiters resume, active is 3. -/
theorem c4_grow_wakes_head_witness :
    update_limit ⟨1, 1, 0, [⟨0, false⟩, ⟨1, false⟩], [], [0, 1], [], []⟩ 3
      = Except.ok ⟨3, 1, 0, [], [0, 1], [0, 1], [0, 1], []⟩ ∧
    (⟨3, 1, 0, [], [0, 1], [0, 1], [0, 1], []⟩ : CState).pendingResume
      = [0, 1] ∧
    (⟨3, 1, 0, [], [0, 1], [0, 1], [0, 1], []⟩ : CState).available = 0 ∧
    (resumeAll [0, 1]
      (⟨3, 1, 0, [], [0, 1], [0, 1], [0, 1], []⟩ : CState)).active_count
      = 3 := by
  have h : update_limit ⟨1, 1, 0, [⟨0, false⟩, ⟨1, false⟩], [], [0, 1], [], []⟩ 3
      = Except.ok ⟨3, 1, 0, [], [0, 1], [0, 1], [0, 1], []⟩ := by rfl
  obtain ⟨m1, m2, m3, m4, m5, m6, m7⟩ := c4_grow_wakes_head
    ⟨1, 1, 0, [⟨0, false⟩, ⟨1, false⟩], [], [0, 1], [], []⟩
    ⟨3, 1, 0, [], [0, 1], [0, 1], [0, 1], []⟩ 3
    (by decide) (by decide) (by decide) (by decide) h
  refine ⟨h, by simpa using m4, by simpa using m6, by simpa using m7⟩

/-- C1: for every sequence of Acquire and Release operations executed at a
fixed limit L (no SetLimit calls), the number of concurrently granted
permits — active holders, and even active holders together with waiters
already granted but not yet resumed — never exceeds L. -/
theorem c1_fixed_limit_bound (L : Int) (s : CState) (hL : 0 ≤ L)
    (h : ReachF L s) :
    s.active_count ≤ L ∧
    s.active_count + (s.pendingResume.length : Int) ≤ L := by
  obtain ⟨h1, h2, h3⟩ := reachF_InvF hL h
  constructor <;> omega

/-- Witness for c1_fixed_limit_bound: the state after one fast-path acquire
at limit 1 is reachable and holds at most 1 permit. -/
theorem c1_fixed_limit_bound_witness :
    (⟨1, 1, 0, [], [], [], [], []⟩ : CState).active_count ≤ (1 : Int) := by
  have hstep : StepF (mkInit 1) ⟨1, 1, 0, [], [], [], [], []⟩ :=
    StepF.acqFast (mkInit 1) (by decide)
  exact (c1_fixed_limit_bound 1 _ (by decide)
    (Relation.ReflTransGen.single hstep)).1

/-- C2 (code bug witness): the cancellation race DOES lose a permit.  At
limit 1: task A acquires on the fast path; task B enqueues a waiter; A
releases, which decrements active and grants the queued future by
set_result; before B resumes, the cancellation B requested is delivered at
its await, so B observes Cancelled while the permit transferred to it is
restored nowhere.  The final state is reachable, B has observed Cancelled,
and active + available + queued + granted-pending drops from 1 (at init)
to 0, so the permit is gone for good, contradicting the claimed
conservation and exactly-one-outcome guarantee. -/
theorem c2_cancellation_race_loses_permit :
    ReachF 1 ⟨1, 0, 0, [], [], [0], [0], []⟩ ∧
    ((⟨1, 0, 0, [], [], [0], [0], []⟩ : CState).active_count
      + (⟨1, 0, 0, [], [], [0], [0], []⟩ : CState).available
      + ((⟨1, 0, 0, [], [], [0], [0], []⟩ : CState).waiters.length : Int)
      + ((⟨1, 0, 0, [], [], [0], [0], []⟩ : CState).pendingResume.length : Int)
      = 0) ∧
    (mkInit 1).active_count + (mkInit 1).available
      + ((mkInit 1).waiters.length : Int)
      + ((mkInit 1).pendingResume.length : Int) = 1 := by
  refine ⟨?_, by decide, by decide⟩
  have h1 : StepF (mkInit 1) ⟨1, 1, 0, [], [], [], [], []⟩ :=
    StepF.acqFast (mkInit 1) (by decide)
  have h2 : StepF (⟨1, 1, 0, [], [], [], [], []⟩ : CState)
      ⟨1, 1, 0, [⟨0, false⟩], [], [0], [], []⟩ :=
    StepF.acqSlow _ 0
  have h3 : StepF (⟨1, 1, 0, [⟨0, false⟩], [], [0], [], []⟩ : CState)
      ⟨1, 0, 0, [], [0], [0], [0], []⟩ :=
    StepF.rel _ (by decide)
  have h4 : StepF (⟨1, 0, 0, [], [0], [0], [0], []⟩ : CState)
      ⟨1, 0, 0, [], [], [0], [0], []⟩ :=
    StepF.resumeCancelled _ 0 (by decide)
  exact Relation.ReflTransGen.tail
    (Relation.ReflTransGen.tail
      (Relation.ReflTransGen.tail (Relation.ReflTransGen.single h1) h2) h3) h4

/-- C7: under a constant limit with no shrink (indeed no SetLimit at all),
waiters are granted in exactly the order in which they enqueued: the grant
history is a subsequence of the enqueue history.  Acquire appends at the
tail (acqSlow) and each Release grants the head-most still-pending waiter
(release_async via extractFirstPending). -/
theorem c7_fifo_grants (L : Int) (s : CState) (h : ReachF L s) :
    s.grantLog.Sublist s.enqLog := by
  have hq := reachF_InvQ h
  exact List.Sublist.trans (List.sublist_append_left _ _) hq

/-- Witness for c7_fifo_grants: at limit 1, after an acquire, a queued
acquire of waiter 7 and a release that grants it, the grant log [7] is a
subsequence of the enqueue log [7]. -/
theorem c7_fifo_grants_witness :
    ([7] : List Nat).Sublist [7] := by
  have h1 : StepF (mkInit 1) ⟨1, 1, 0, [], [], [], [], []⟩ :=
    StepF.acqFast (mkInit 1) (by decide)
  have h2 : StepF (⟨1, 1, 0, [], [], [], [], []⟩ : CState)
      ⟨1, 1, 0, [⟨7, false⟩], [], [7], [], []⟩ :=
    StepF.acqSlow _ 7
  have h3 : StepF (⟨1, 1, 0, [⟨7, false⟩], [], [7], [], []⟩ : CState)
      ⟨1, 0, 0, [], [7], [7], [7], []⟩ :=
    StepF.rel _ (by decide)
  exact c7_fifo_grants 1 ⟨1, 0, 0, [], [7], [7], [7], []⟩
    (Relation.ReflTransGen.tail
      (Relation.ReflTransGen.tail (Relation.ReflTransGen.single h1) h2) h3)

/-- C8: Release never suspends the caller and never fails: release()
schedules _release_async as a fire-and-forget task and returns at once, and
_release_async is a total function of the state.  It decrements
_active_count, then either grants the head-most still-pending waiter
(available untouched, and active NOT incremented on the grantee's behalf —
the woken waiter increments it itself on resumption) or, absent pending
waiters, increments _available. -/
theorem c8_release_never_blocks (s : CState) :
    (release_async s).active_count = s.active_count - 1 ∧
    (∀ w r, extractFirstPending s.waiters = some (w, r) →
      s.waiters.find? (fun x => !x.done) = some w ∧
      (release_async s).available = s.available ∧
      (release_async s).waiters = r ∧
      (release_async s).pendingResume = s.pendingResume ++ [w.id] ∧
      (release_async s).grantLog = s.grantLog ++ [w.id]) ∧
    (extractFirstPending s.waiters = none →
      (release_async s).available = s.available + 1 ∧
      (release_async s).pendingResume = s.pendingResume ∧
      (release_async s).grantLog = s.grantLog) := by
  refine ⟨?_, ?_, ?_⟩
  · simp only [release_async]
    cases hx : extractFirstPending s.waiters with
    | some p => obtain ⟨w, r⟩ := p; rfl
    | none => rfl
  · intro w r hx
    refine ⟨extractFirstPending_eq_find hx, ?_, ?_, ?_, ?_⟩ <;>
      simp [release_async, hx]
  · intro hx
    refine ⟨?_, ?_, ?_⟩ <;> simp [release_async, hx]

/-- Witness for c8_release_never_blocks: releasing with one pending waiter
3 queued decrements active from 2 to 1 and grants waiter 3. -/
theorem c8_release_never_blocks_witness :
    (release_async ⟨2, 2, 0, [⟨3, false⟩], [], [3], [], []⟩).active_count = 1 ∧
    (release_async ⟨2, 2, 0, [⟨3, false⟩], [], [3], [], []⟩).pendingResume
      = [3] := by
  have h := c8_release_never_blocks ⟨2, 2, 0, [⟨3, false⟩], [], [3], [], []⟩
  constructor
  · rw [h.1]; decide
  · rw [(h.2.1 ⟨3, false⟩ [] (by rfl)).2.2.2.1]; decide

/-- C5 (amended): SetLimit validation.  CancellableMonitoredSemaphore
raises ValueError for a non-positive limit before touching any state, so
the failure surfaces to the caller with limit, active, available and queue
unchanged, and an equal limit is a success without side effects;
MonitoredSemaphore raises the same ValueError internally but its blanket
except handler swallows it, so its update_limit returns success with the
state unchanged instead of surfacing the failure. -/
theorem c5_setlimit_validation (s : CState) (m : MState) (n : Int) :
    (n ≤ 0 →
      update_limit s n = Except.error "Semaphore limit must be positive" ∧
      m_update_limit m n = Except.ok m) ∧
    (0 < n → n = s.max_value → update_limit s n = Except.ok s) ∧
    (0 < n → n = m.max_value → m_update_limit m n = Except.ok m) := by
  refine ⟨?_, ?_, ?_⟩
  · intro hn
    constructor
    · simp [update_limit, if_pos hn]
    · simp [m_update_limit, if_pos hn]
  · intro h0 he
    simp [update_limit, if_neg (not_le.mpr h0), if_pos he]
  · intro h0 he
    simp [m_update_limit, if_neg (not_le.mpr h0), if_pos he]

/-- Witness for c5_setlimit_validation at limit 2 with requested limits 0
and 2. -/
theorem c5_setlimit_validation_witness :
    update_limit (mkInit 2) 0
      = Except.error "Semaphore limit must be positive" ∧
    m_update_limit (mInit 2) 0 = Except.ok (mInit 2) ∧
    update_limit (mkInit 2) 2 = Except.ok (mkInit 2) := by
  have h := c5_setlimit_validation (mkInit 2) (mInit 2) 0
  have h2 := c5_setlimit_validation (mkInit 2) (mInit 2) 2
  exact ⟨(h.1 (by decide)).1, (h.1 (by decide)).2,
    h2.2.1 (by decide) (by rfl)⟩

/-- C5 counterexample: MonitoredSemaphore.update_limit(0) completes as a
success with the state unchanged — the ValueError raised for the
non-positive limit is caught by the except handler inside update_limit and
never surfaces to the caller of SetLimit, contrary to the claim. -/
theorem c5_invalid_limit_not_surfaced :
    m_update_limit ⟨1, 1, 0, []⟩ 0 = Except.ok ⟨1, 1, 0, []⟩ := by
  rfl

/-- C6: the two resize strategies in the source are not equivalent.  On
the schedule acquire; SetLimit 2; acquire; acquire from initial limit 1,
the instance-replacement strategy (MonitoredSemaphore) ends with three
concurrent holders — the fresh semaphore installed by the resize forgets
the permit still held on the replaced instance — while the
single-shared-state strategy (CancellableMonitoredSemaphore) ends with
two, its configured limit, the third acquire being queued. -/
theorem c6_strategies_inequivalent :
    (runM (mInit 1) [Op.acq, Op.setLimit 2, Op.acq, Op.acq]).active_count
      = 3 ∧
    (runC (mkInit 1) [Op.acq, Op.setLimit 2, Op.acq, Op.acq]).active_count
      = 2 ∧
    (runM (mInit 1) [Op.acq, Op.setLimit 2, Op.acq, Op.acq]).max_value
      = (runC (mkInit 1) [Op.acq, Op.setLimit 2, Op.acq, Op.acq]).max_value := by
  exact ⟨by rfl, by rfl, by rfl⟩

/-- C9 counterexample: after two acquires at limit 2 and a shrink to 1,
MonitoredSemaphore.available_permits returns -1 while
max(0, limit - active) is 0 — the accessor is the unclamped subtraction
limit - active, not the claimed clamped form. -/
theorem c9_available_permits_unclamped :
    m_available_permits (runM (mInit 2) [Op.acq, Op.acq, Op.setLimit 1])
      = -1 ∧
    max 0 ((runM (mInit 2) [Op.acq, Op.acq, Op.setLimit 1]).max_value
      - (runM (mInit 2) [Op.acq, Op.acq, Op.setLimit 1]).active_count)
      = 0 := by
  exact ⟨by rfl, by decide⟩

/-- C9 (amended): the status accessors are pure projections of the state.
currentLimit returns the limit and saturationPercentage returns
active/limit*100 (0 when limit = 0) for both classes.  availablePermits
returns the unclamped limit - active for MonitoredSemaphore — equal to
max(0, limit - active) exactly when active has not over-committed past the
limit — and the stored available counter for
CancellableMonitoredSemaphore. -/
theorem c9_status_accessors (s : CState) (m : MState) :
    current_limit s = s.max_value ∧
    available_permits s = s.available ∧
    active_count_acc s = s.active_count ∧
    (s.max_value = 0 → saturation_percentage s = 0) ∧
    (s.max_value ≠ 0 →
      saturation_percentage s
        = (s.active_count : ℚ) / (s.max_value : ℚ) * 100) ∧
    m_current_limit m = m.max_value ∧
    m_available_permits m = m.max_value - m.active_count ∧
    (m.active_count ≤ m.max_value →
      m_available_permits m = max 0 (m.max_value - m.active_count)) ∧
    (m.max_value = 0 → m_saturation_percentage m = 0) ∧
    (m.max_value ≠ 0 →
      m_saturation_percentage m
        = (m.active_count : ℚ) / (m.max_value : ℚ) * 100) := by
  refine ⟨rfl, rfl, rfl, ?_, ?_, rfl, rfl, ?_, ?_, ?_⟩
  · intro h
    simp [saturation_percentage, h]
  · intro h
    simp [saturation_percentage, h]
  · intro h
    rw [m_available_permits, max_eq_right (by omega)]
  · intro h
    simp [m_saturation_percentage, h]
  · intro h
    simp [m_saturation_percentage, h]

/-- Witness for c9_status_accessors: one active holder at limit 2 reads
50 percent saturation, and a non-over-committed MonitoredSemaphore state
reads the clamped available count. -/
theorem c9_status_accessors_witness :
    saturation_percentage ⟨2, 1, 1, [], [], [], [], []⟩ = 50 ∧
    m_available_permits ⟨0, 2, 1, []⟩ = max 0 ((2 : Int) - 1) := by
  have h := c9_status_accessors ⟨2, 1, 1, [], [], [], [], []⟩ ⟨0, 2, 1, []⟩
  constructor
  · rw [h.2.2.2.2.1 (by decide)]
    norm_num
  · exact h.2.2.2.2.2.2.2.1 (by decide)

/-- C10: the fetch validation accepts the JSON boolean true as a limit.
Python bool subclasses int, so isinstance(True, int) holds and True > 0 is
numerically 1 > 0; the fetch therefore returns True (value 1) instead of
treating the payload as malformed, and update_limit then happily sets the
semaphore limit to that value 1; a string payload by contrast is
rejected as a non-update. -/
theorem c10_bool_limit_accepted :
    fetch_limit_validate [("limit", PyVal.pyBool true)]
      = some (PyVal.pyBool true) ∧
    pyToInt (PyVal.pyBool true) = 1 ∧
    update_limit (mkInit 5) (pyToInt (PyVal.pyBool true))
      = Except.ok ⟨1, 0, 1, [], [], [], [], []⟩ ∧
    fetch_limit_validate [("limit", PyVal.pyStr "nope")] = none := by
  exact ⟨by rfl, by rfl, by rfl, by rfl⟩

end ArcLang
